import Mathlib

/-!
Verification development for `matminer/featurizers/structure/distribution.py`.

The file embeds the three radial-distribution descriptors of that module —
`RadialDistributionFunction`, `PartialRadialDistributionFunction` and
`ElectronicRadialDistributionFunction` — as executable Lean definitions over
exact rationals (machine floats are idealized as `ℚ`, real-valued
normalization involving `π` lives in `ℝ`), and proves the behavioural
properties of the module against them.

External collaborators (pymatgen neighbor search, composition, symmetry and
oxidation-state assignment) are modelled as data carried by the structure
records, following the collaborator contracts: a structure carries its sites,
its unit-cell volume, its ordered-occupancy flag and the per-site neighbor
lists that the neighbor-search collaborator would return for the configured
cutoff.
-/

/-- Species occupying a site: either a plain element or a species decorated
with an oxidation state (pymatgen `Element` vs `Specie`). -/
inductive SiteSpecies where
  | elem (symbol : String)
  | specie (symbol : String) (oxi : ℚ)
deriving DecidableEq, Repr

/-- Embeds the local helper `get_symbol` in
`PartialRadialDistributionFunction.compute_prdf` (lines 187-191): the symbol
of a site, species with oxidation state reduced to the base element symbol. -/
def get_symbol : SiteSpecies → String
  | SiteSpecies.elem s => s
  | SiteSpecies.specie s _ => s

/-- A pymatgen `Structure` as the engines consume it: the sites, the cell
volume, the ordered-occupancy flag, and the per-site neighbor list
`(neighbor site species, distance)` returned by `get_all_neighbors(cutoff)`
(the neighbor-search collaborator, out of scope of the engine core). -/
structure Struct where
  sites : List SiteSpecies
  volume : ℚ
  is_ordered : Bool
  neighbors : List (List (SiteSpecies × ℚ))
deriving DecidableEq, Repr

/-- Embeds `np.arange(0, stop, step)` for a positive step in exact rational
arithmetic: the values `0, step, 2*step, ...` strictly below `stop`, i.e.
`⌈stop/step⌉` values. -/
def npArange (stop step : ℚ) : List ℚ :=
  (List.range (Int.toNat ⌈stop / step⌉)).map (fun (i : ℕ) => (i : ℚ) * step)

/-- Embeds `PartialRadialDistributionFunction._make_bins` (line 226) and the
identical `np.arange(0, self.cutoff + self.bin_size, self.bin_size)`
expression in `RadialDistributionFunction.featurize` (lines 54-55). -/
def make_bins (cutoff bin_size : ℚ) : List ℚ :=
  npArange (cutoff + bin_size) bin_size

/-- Embeds `np.histogram(ds, bins=edges, density=False)` (the raw counts):
each bin `i` counts the values in the half-open interval
`[edges[i], edges[i+1])`, except the final bin, which per numpy's documented
semantics is closed and also counts values equal to its right edge. -/
def histCounts (ds : List ℚ) : List ℚ → List ℕ
  | e1 :: e2 :: e3 :: rest =>
      ds.countP (fun d => decide (e1 ≤ d) && decide (d < e2))
        :: histCounts ds (e2 :: e3 :: rest)
  | [e1, e2] => [ds.countP (fun d => decide (e1 ≤ d) && decide (d ≤ e2))]
  | _ => []

/-- Message of the `ValueError` raised by `RadialDistributionFunction.featurize`
(line 45) and `PartialRadialDistributionFunction.featurize` (line 149). -/
def disorderedMsg : String := "Disordered structure support not built yet"

/-- Message of the `Exception` raised by `PartialRadialDistributionFunction`
when `fit` has not been called (lines 151 and 230; the source text quotes
the word fit). -/
def notFittedMsg : String := "You must run fit first!"

/-- Message of the `ValueError` raised by
`ElectronicRadialDistributionFunction.featurize` when `dr <= 0` (line 295). -/
def widthMsg : String := "width of bins for ReDF must be >0"

/-- Configuration of `RadialDistributionFunction.__init__` (lines 29-31). -/
structure RDFConfig where
  cutoff : ℚ
  bin_size : ℚ
deriving DecidableEq, Repr

/-- Embeds lines 48-50: the flattened list of all neighbor distances across
all sites, `np.concatenate(map(lambda x: [e[1] for e in x], neighbors_lst))`. -/
def all_distances (s : Struct) : List ℚ :=
  s.neighbors.flatMap (fun nlst => nlst.map (fun e => e.2))

/-- Embeds the elementwise shell volume of lines 58-59 (and 206-207):
`4/3 * pi * (dist_bins[i+1]^3 - dist_bins[i]^3)`. -/
noncomputable def shell_vol (edges : List ℚ) (i : ℕ) : ℝ :=
  4 / 3 * Real.pi * (((edges.getD (i + 1) 0 : ℚ) : ℝ) ^ 3 - ((edges.getD i 0 : ℚ) : ℝ) ^ 3)

/-- Embeds the body of `RadialDistributionFunction.featurize` after the
ordered-occupancy check (lines 47-62): histogram of all distances over the
`np.arange` edges, then elementwise division by shell volume and by the
number density `num_sites / volume`.  Returns the pair
`(dist_bins[:-1], rdf)` as in the returned dict. -/
noncomputable def rdf_compute (cfg : RDFConfig) (s : Struct) : List ℚ × List ℝ :=
  let dist_bins := make_bins cfg.cutoff cfg.bin_size
  let dist_hist := histCounts (all_distances s) dist_bins
  let number_density : ℝ := (s.sites.length : ℝ) / (s.volume : ℝ)
  ((dist_bins.dropLast),
    (List.range dist_hist.length).map
      (fun i => (dist_hist.getD i 0 : ℝ) / shell_vol dist_bins i / number_density))

/-- Embeds `RadialDistributionFunction.featurize` (lines 33-62) including the
`is_ordered` guard of lines 44-45. -/
noncomputable def rdf_featurize (cfg : RDFConfig) (s : Struct) :
    Except String (List ℚ × List ℝ) :=
  if s.is_ordered = true then Except.ok (rdf_compute cfg s)
  else Except.error disorderedMsg

/-- Configuration of `PartialRadialDistributionFunction.__init__`
(lines 97-104). -/
structure PRDFConfig where
  cutoff : ℚ
  bin_size : ℚ
  include_elems : List String
  exclude_elems : List String
deriving DecidableEq, Repr

/-- Keys of `s.composition.fractional_composition.to_reduced_dict`, per the
composition-collaborator contract a mapping from base element symbols to
fractional amounts: the distinct element symbols of the sites. -/
def compKeys (s : Struct) : List String :=
  (s.sites.map get_symbol).dedup

/-- Fractional amount of element `e` in the composition of `s` (the value
`composition[e]` of line 213): occurrence count divided by site count. -/
def fracAmt (s : Struct) (e : String) : ℚ :=
  ((s.sites.map get_symbol).count e : ℚ) / (s.sites.length : ℚ)

/-- Embeds the bucket `distances_by_type[(e1, e2)]` filled by the loop of
lines 194-201: for each site whose symbol is `e1`, the distances to its
neighbors whose symbol is `e2`, in traversal order. -/
def pair_distances (s : Struct) (e1 e2 : String) : List ℚ :=
  (s.sites.zip s.neighbors).flatMap (fun p =>
    if get_symbol p.1 = e1 then
      (p.2.filter (fun n => decide (get_symbol n.1 = e2))).map (fun n => n.2)
    else [])

/-- Embeds the per-pair normalization of lines 208-216: histogram of the
bucket `(e1, e2)` over the shared edges, divided elementwise by the shell
volume and by `n_alpha = composition[e1] * num_sites`. -/
noncomputable def prdf_for_pair (cfg : PRDFConfig) (s : Struct) (e1 e2 : String) : List ℝ :=
  let dist_bins := make_bins cfg.cutoff cfg.bin_size
  let dist_hist := histCounts (pair_distances s e1 e2) dist_bins
  let n_alpha : ℝ := ((fracAmt s e1 : ℚ) : ℝ) * (s.sites.length : ℝ)
  (List.range dist_hist.length).map
    (fun i => (dist_hist.getD i 0 : ℝ) / shell_vol dist_bins i / n_alpha)

/-- Embeds `itertools.combinations_with_replacement(l, 2)`: the pairs
`(l[i], l[j])` with `i ≤ j` in lexicographic index order. -/
def cwr2 : List String → List (String × String)
  | [] => []
  | x :: xs => (x :: xs).map (fun y => (x, y)) ++ cwr2 xs

/-- Embeds `prdf.get(key, zeros)` of line 160: the per-pair feature block; a
pair is a key of the `prdf` dict exactly when both of its elements are keys
of the structure's composition (the dict is initialized over
`itertools.product(composition.keys(), composition.keys())`, lines 184-185),
and otherwise the block is `np.zeros_like(dist_bins)` (line 157). -/
noncomputable def prdf_block (cfg : PRDFConfig) (s : Struct) (p : String × String) : List ℝ :=
  if p.1 ∈ compKeys s ∧ p.2 ∈ compKeys s then prdf_for_pair cfg s p.1 p.2
  else (make_bins cfg.cutoff cfg.bin_size).dropLast.map (fun _ => (0 : ℝ))

/-- Embeds the assembly loop of `PartialRadialDistributionFunction.featurize`
(lines 156-163): `np.hstack` of the blocks for every
`combinations_with_replacement` pair of the fitted vocabulary. -/
noncomputable def prdf_compute (cfg : PRDFConfig) (elems : List String) (s : Struct) : List ℝ :=
  (cwr2 elems).flatMap (prdf_block cfg s)

/-- Embeds `PartialRadialDistributionFunction.featurize` (lines 136-163): the
ordered-occupancy guard (lines 148-149), then the fitted-vocabulary guard
(lines 150-151), then the feature assembly. -/
noncomputable def prdf_featurize (cfg : PRDFConfig) (elements_ : Option (List String))
    (s : Struct) : Except String (List ℝ) :=
  if s.is_ordered = true then
    match elements_ with
    | none => Except.error notFittedMsg
    | some elems => Except.ok (prdf_compute cfg elems s)
  else Except.error disorderedMsg

/-- Embeds `PartialRadialDistributionFunction.fit` (lines 106-134): the set of
included elements, updated with the composition keys of every training
structure (species reduced to their base element via `get_symbol`), minus the
excluded elements, sorted canonically. -/
def fitVocab (include_elems exclude_elems : List String) (X : List Struct) : List String :=
  Finset.sort (· ≤ ·)
    ((include_elems.toFinset ∪ (X.flatMap compKeys).toFinset) \ exclude_elems.toFinset)

/-- Two-decimal rendering used by the `"{:.2f}"` format of line 236. -/
def fmt2 (q : ℚ) : String :=
  let n : ℤ := ⌊q * 100 + 1 / 2⌋
  toString (n / 100) ++ "." ++ (if n % 100 < 10 then ("0") else ("")) ++ toString (n % 100)

/-- Embeds `PartialRadialDistributionFunction.feature_labels` (lines 228-239):
the fitted-vocabulary guard, then one label per vocabulary pair and bin. -/
def prdf_feature_labels (cfg : PRDFConfig) (elements_ : Option (List String)) :
    Except String (List String) :=
  match elements_ with
  | none => Except.error notFittedMsg
  | some elems =>
    Except.ok ((cwr2 elems).flatMap (fun p =>
      ((make_bins cfg.cutoff cfg.bin_size).zip (make_bins cfg.cutoff cfg.bin_size).tail).map
        (fun r => p.1 ++ "-" ++ p.2 ++ " PRDF r=" ++ fmt2 r.1 ++ "-" ++ fmt2 r.2)))

/-- The `ElectronicRadialDistributionFunction` engine state stored by
`__init__` (lines 277-279): the (possibly unset) cutoff and the bin width. -/
structure ReDFEngine where
  cutoff : Option ℚ
  dr : ℚ
deriving DecidableEq, Repr

/-- Embeds `ElectronicRadialDistributionFunction.__init__` (lines 277-279):
the attributes are stored unconditionally; no validation is performed. -/
def redf_init (cutoff : Option ℚ) (dr : ℚ) : Except String ReDFEngine :=
  Except.ok ⟨cutoff, dr⟩

/-- A structure after the out-of-scope preprocessing of ReDF (primitive-cell
reduction and oxidation-state assignment, lines 297-301): per-site charges
`site.specie.oxi_state`, and for each site the neighbor list
`(neighbor charge, distance)` returned by `get_neighbors(site, cutoff)`.
The `is_ordered` occupancy flag is carried but never consulted by the ReDF
engine code. -/
structure ChargedStruct where
  charges : List ℚ
  neighborsOf : List (List (ℚ × ℚ))
  is_ordered : Bool
deriving DecidableEq, Repr

/-- Bin count of line 312: `int(self.cutoff / self.dr) + 1`. -/
def redf_nbins (cutoff dr : ℚ) : ℕ :=
  Int.toNat ⌊cutoff / dr⌋ + 1

/-- In-place accumulation `v[i] += x` on a numpy array embedded as a list. -/
def addAt (v : List ℚ) (i : ℕ) (x : ℚ) : List ℚ :=
  v.set i (v.getD i 0 + x)

/-- The accumulation stream of the double loop of lines 317-324: one record
per ordered (site, neighbor) pair, carrying the target bin `int(dist / dr)`
and the added value `this_charge * neigh_charge / (num_sites * dist)`. -/
def redf_contribs (dr : ℚ) (s : ChargedStruct) : List (ℕ × ℚ) :=
  (s.charges.zip s.neighborsOf).flatMap (fun p =>
    p.2.map (fun n => (Int.toNat ⌊n.2 / dr⌋, p.1 * n.1 / ((s.charges.length : ℚ) * n.2))))

/-- Embeds the bin setup and accumulation of
`ElectronicRadialDistributionFunction.featurize` (lines 312-326): the
reported bin centers `(i + 0.5) * dr` and the distribution obtained by
folding every contribution into a zero-initialized array. -/
def redf_compute (cutoff dr : ℚ) (s : ChargedStruct) : List ℚ × List ℚ :=
  ((List.range (redf_nbins cutoff dr)).map (fun (i : ℕ) => ((i : ℚ) + 1 / 2) * dr),
    (redf_contribs dr s).foldl (fun v c => addAt v c.1 c.2)
      (List.replicate (redf_nbins cutoff dr) 0))

/-- Embeds `ElectronicRadialDistributionFunction.featurize` (lines 281-326)
for an already-resolved cutoff: the `dr <= 0` guard of lines 294-295, then
the accumulation.  No ordered-occupancy check is performed (the source has
none). -/
def redf_featurize (cutoff dr : ℚ) (s : ChargedStruct) :
    Except String (List ℚ × List ℚ) :=
  if dr ≤ 0 then Except.error widthMsg
  else Except.ok (redf_compute cutoff dr s)

/-- Concrete ordered one-site structure used by witnesses. -/
def cuStruct : Struct :=
  ⟨[SiteSpecies.elem ("Cu")], 1, true, [[(SiteSpecies.elem ("Cu"), 1)]]⟩

/-- Concrete ordered two-element structure (Fe and O sites) used by
witnesses. -/
def feOStruct : Struct :=
  ⟨[SiteSpecies.elem ("Fe"), SiteSpecies.elem ("O")], 2, true,
    [[(SiteSpecies.elem ("O"), 1)], [(SiteSpecies.elem ("Fe"), 1)]]⟩

/-- Concrete structure with elements Fe (as an oxidation-state species) and
Ni, used by the fit witnesses. -/
def feNiStruct : Struct :=
  ⟨[SiteSpecies.specie ("Fe") 2, SiteSpecies.elem ("Ni")], 2, true, [[], []]⟩

/-- Concrete disordered structure. -/
def disorderedStruct : Struct :=
  ⟨[SiteSpecies.elem ("Fe")], 1, false, [[]]⟩

/-- Concrete charged structure: two sites of charges `+1` and `-1`, each
seeing the other at distance `1`. -/
def ionPair : ChargedStruct :=
  ⟨[1, -1], [[(-1, 1)], [(1, 1)]], true⟩

/-- Concrete charged structure whose occupancy flag is disordered. -/
def disorderedIonPair : ChargedStruct :=
  ⟨[1, -1], [[(-1, 1)], [(1, 1)]], false⟩

theorem histCounts_length (ds : List ℚ) :
    ∀ edges : List ℚ, (histCounts ds edges).length = edges.length - 1
  | [] => rfl
  | [_] => rfl
  | [_, _] => rfl
  | e1 :: e2 :: e3 :: rest => by
      simp only [histCounts, List.length_cons, histCounts_length ds (e2 :: e3 :: rest)]
      omega

theorem countP_or_disjoint (l : List ℚ) (p q : ℚ → Bool)
    (h : ∀ d, ¬(p d = true ∧ q d = true)) :
    l.countP (fun d => p d || q d) = l.countP p + l.countP q := by
  induction l with
  | nil => simp
  | cons a l ih =>
      rcases hp : p a with _ | _ <;> rcases hq : q a with _ | _ <;>
        simp [List.countP_cons, hp, hq, ih] <;> first | omega | exact absurd ⟨hp, hq⟩ (h a)

theorem head_le_getLast_of_pairwise (e1 : ℚ) (rest : List ℚ)
    (h : List.Pairwise (· < ·) (e1 :: rest)) :
    e1 ≤ (e1 :: rest).getLast (List.cons_ne_nil e1 rest) := by
  cases rest with
  | nil => simp [List.getLast]
  | cons b t =>
      rw [List.getLast_cons (List.cons_ne_nil b t)]
      exact le_of_lt ((List.pairwise_cons.mp h).1 _ (List.getLast_mem (List.cons_ne_nil b t)))

theorem histCounts_getD (ds : List ℚ) :
    ∀ (edges : List ℚ) (i : ℕ), i + 2 < edges.length →
      (histCounts ds edges).getD i 0 =
        ds.countP (fun d => decide (edges.getD i 0 ≤ d) && decide (d < edges.getD (i + 1) 0))
  | [], i, h => by simp at h
  | [_], i, h => by simp at h
  | [_, _], i, h => by simp at h
  | e1 :: e2 :: e3 :: rest, 0, h => by
      simp [histCounts]
  | e1 :: e2 :: e3 :: rest, i + 1, h => by
      have h' : i + 2 < (e2 :: e3 :: rest).length := by
        simp only [List.length_cons] at h ⊢; omega
      simpa [histCounts, List.getD_cons_succ] using histCounts_getD ds (e2 :: e3 :: rest) i h'

theorem histCounts_getD_last (ds : List ℚ) :
    ∀ (e1 : ℚ) (rest : List ℚ), rest ≠ [] →
      (histCounts ds (e1 :: rest)).getD ((e1 :: rest).length - 2) 0 =
        ds.countP (fun d => decide ((e1 :: rest).getD ((e1 :: rest).length - 2) 0 ≤ d)
          && decide (d ≤ (e1 :: rest).getLast (List.cons_ne_nil e1 rest)))
  | _, [], hne => absurd rfl hne
  | e1, [e2], _ => by simp [histCounts, List.getLast]
  | e1, e2 :: e3 :: rest, _ => by
      have ih := histCounts_getD_last ds e2 (e3 :: rest) (List.cons_ne_nil e3 rest)
      have hunfold : histCounts ds (e1 :: e2 :: e3 :: rest)
          = ds.countP (fun d => decide (e1 ≤ d) && decide (d < e2))
            :: histCounts ds (e2 :: e3 :: rest) := rfl
      have hlen : (e1 :: e2 :: e3 :: rest).length - 2 = ((e2 :: e3 :: rest).length - 2) + 1 := by
        simp only [List.length_cons]; omega
      rw [hlen, hunfold, List.getD_cons_succ, List.getD_cons_succ,
        List.getLast_cons (List.cons_ne_nil e2 (e3 :: rest))]
      exact ih

theorem histCounts_sum (ds : List ℚ) :
    ∀ (e1 : ℚ) (rest : List ℚ), rest ≠ [] →
      List.Pairwise (· < ·) (e1 :: rest) →
      (histCounts ds (e1 :: rest)).sum =
        ds.countP (fun d => decide (e1 ≤ d)
          && decide (d ≤ (e1 :: rest).getLast (List.cons_ne_nil e1 rest)))
  | _, [], hne, _ => absurd rfl hne
  | e1, [e2], _, _ => by simp [histCounts, List.getLast]
  | e1, e2 :: e3 :: rest, _, hp => by
      have hp' : List.Pairwise (· < ·) (e2 :: e3 :: rest) := (List.pairwise_cons.mp hp).2
      have h12 : e1 < e2 := (List.pairwise_cons.mp hp).1 e2 (by simp)
      have ih := histCounts_sum ds e2 (e3 :: rest) (List.cons_ne_nil e3 rest) hp'
      have h2L : e2 ≤ (e2 :: e3 :: rest).getLast (List.cons_ne_nil e2 (e3 :: rest)) :=
        head_le_getLast_of_pairwise e2 (e3 :: rest) hp'
      rw [List.getLast_cons (List.cons_ne_nil e2 (e3 :: rest))]
      have hsum : (histCounts ds (e1 :: e2 :: e3 :: rest)).sum =
          ds.countP (fun d => decide (e1 ≤ d) && decide (d < e2)) +
          (histCounts ds (e2 :: e3 :: rest)).sum := by
        simp [histCounts]
      rw [hsum, ih]
      rw [← countP_or_disjoint ds _ _ (by
        intro d hd
        rcases hd with ⟨hd1, hd2⟩
        simp only [Bool.and_eq_true, decide_eq_true_eq] at hd1 hd2
        exact absurd hd2.1 (not_le.mpr hd1.2))]
      refine List.countP_congr ?_
      intro d _
      set L := (e2 :: e3 :: rest).getLast (List.cons_ne_nil e2 (e3 :: rest)) with hL
      rcases le_or_lt e2 d with hc | hc
      · have h1d : e1 ≤ d := le_of_lt (lt_of_lt_of_le h12 hc)
        by_cases hdL : d ≤ L <;> simp [hc, hdL, h1d, not_lt.mpr hc]
      · have hdL : d ≤ L := le_trans (le_of_lt hc) h2L
        by_cases h1d : e1 ≤ d <;> simp [hc, hdL, h1d, not_le.mpr hc]

theorem npArange_length (stop step : ℚ) :
    (npArange stop step).length = Int.toNat ⌈stop / step⌉ := by
  rw [npArange, List.length_map, List.length_range]

theorem npArange_pairwise (stop step : ℚ) (hstep : 0 < step) :
    List.Pairwise (· < ·) (npArange stop step) := by
  rw [npArange, List.pairwise_map]
  exact (List.pairwise_lt_range _).imp
    (fun hab => mul_lt_mul_of_pos_right (by exact_mod_cast hab) hstep)

theorem npArange_head (stop step : ℚ) (h : 0 < Int.toNat ⌈stop / step⌉) :
    (npArange stop step).head? = some 0 := by
  obtain ⟨n, hn⟩ := Nat.exists_eq_succ_of_ne_zero (Nat.pos_iff_ne_zero.mp h)
  simp [npArange, hn, List.range_succ_eq_map]

theorem make_bins_length (cutoff bin_size : ℚ) (hb : 0 < bin_size) :
    (make_bins cutoff bin_size).length = Int.toNat (⌈cutoff / bin_size⌉ + 1) := by
  rw [make_bins, npArange_length]
  congr 2
  rw [add_div, div_self (ne_of_gt hb), Int.ceil_add_one]

/-- C2 (counterexample): when `bin_size` exactly divides `cutoff` the edge
list has `floor(cutoff/bin_size) + 1` entries, not `floor(cutoff/bin_size)
+ 2` as claimed: with `cutoff = 1, bin_size = 1`, `np.arange(0, 2, 1)` is
`[0, 1]`, of length 2, while the claim demands 3. -/
theorem C2_counterexample :
    (make_bins 1 1).length ≠ Int.toNat ⌊(1 : ℚ) / 1⌋ + 2 := by
  with_unfolding_all decide

/-- C2 (amended): for every `cutoff > 0` and `bin_size > 0`, the bin-edge
construction (`_make_bins`, and the identical `np.arange` expression of the
RDF engine) returns exactly `ceil(cutoff/bin_size) + 1` strictly increasing
values starting at 0; this equals `floor(cutoff/bin_size) + 2` exactly when
`bin_size` does not divide `cutoff` (`cutoff/bin_size` not an integer). -/
theorem C2_make_bins (cutoff bin_size : ℚ) (hc : 0 < cutoff) (hb : 0 < bin_size) :
    (make_bins cutoff bin_size).head? = some 0
    ∧ List.Pairwise (· < ·) (make_bins cutoff bin_size)
    ∧ (make_bins cutoff bin_size).length = Int.toNat ⌈cutoff / bin_size⌉ + 1
    ∧ ((cutoff / bin_size).den ≠ 1 →
        (make_bins cutoff bin_size).length = Int.toNat ⌊cutoff / bin_size⌋ + 2) := by
  have hpos : 0 < cutoff / bin_size := div_pos hc hb
  have hceil : (0 : ℤ) < ⌈cutoff / bin_size⌉ := Int.ceil_pos.mpr hpos
  have hlen := make_bins_length cutoff bin_size hb
  refine ⟨?_, npArange_pairwise _ _ hb, ?_, ?_⟩
  · apply npArange_head
    have : (0 : ℤ) < ⌈(cutoff + bin_size) / bin_size⌉ :=
      Int.ceil_pos.mpr (div_pos (by linarith) hb)
    omega
  · rw [hlen]; omega
  · intro hden
    have hfl : (0 : ℤ) ≤ ⌊cutoff / bin_size⌋ := Int.floor_nonneg.mpr (le_of_lt hpos)
    have hne : cutoff / bin_size ≠ ((⌊cutoff / bin_size⌋ : ℤ) : ℚ) := by
      intro heq
      exact hden (by rw [heq]; exact Rat.intCast_den _)
    have h1 : ((⌊cutoff / bin_size⌋ : ℤ) : ℚ) < cutoff / bin_size :=
      lt_of_le_of_ne (Int.floor_le _) (Ne.symm hne)
    have h2 : ⌈cutoff / bin_size⌉ ≤ ⌊cutoff / bin_size⌋ + 1 := by
      apply Int.ceil_le.mpr
      push_cast
      exact le_of_lt (Int.lt_floor_add_one _)
    have h3 : ⌊cutoff / bin_size⌋ < ⌈cutoff / bin_size⌉ := by
      have hx := Int.le_ceil (cutoff / bin_size)
      exact_mod_cast lt_of_lt_of_le h1 hx
    rw [hlen]; omega

/-- C2 (witness): the amended statement evaluated at `cutoff = 3/2`,
`bin_size = 1`. -/
theorem C2_witness :
    ((0 : ℚ) < 3 ∧ (0 : ℚ) < 2)
    ∧ (make_bins 3 2).length = Int.toNat ⌈(3 : ℚ) / 2⌉ + 1 :=
  ⟨⟨by decide, by decide⟩,
    (C2_make_bins 3 2 (by decide) (by decide)).2.2.1⟩

/-- C1 (counterexample): a distance exactly equal to the final edge is
counted (numpy closes the last bin), so the sum of raw counts is not the
number of distances strictly below the last edge: with `distances = [1]` and
`edges = [0, 1]` the histogram is `[1]`, whose sum 1 differs from the 0
distances strictly below 1. -/
theorem C1_counterexample :
    ¬((histCounts [(1 : ℚ)] [0, 1]).sum
        = List.countP (fun d => decide (d < (1 : ℚ))) [(1 : ℚ)]) := by decide

/-- C1 (amended): for every distance list and strictly increasing bin-edge
sequence, the raw histogram counts each distance into the half-open interval
`[edges[i], edges[i+1])` for every non-final bin, while the final bin is
closed and also counts distances exactly equal to the final edge; the sum of
the raw per-bin counts equals the number of input distances `d` with
`edges[0] ≤ d ≤ last edge` (not the number strictly below the last edge). -/
theorem C1_histogram_semantics (ds : List ℚ) (e1 : ℚ) (rest : List ℚ)
    (hne : rest ≠ []) (hp : List.Pairwise (· < ·) (e1 :: rest)) :
    (∀ i, i + 2 < (e1 :: rest).length →
        (histCounts ds (e1 :: rest)).getD i 0 =
          ds.countP (fun d => decide ((e1 :: rest).getD i 0 ≤ d)
            && decide (d < (e1 :: rest).getD (i + 1) 0)))
    ∧ (histCounts ds (e1 :: rest)).getD ((e1 :: rest).length - 2) 0 =
        ds.countP (fun d => decide ((e1 :: rest).getD ((e1 :: rest).length - 2) 0 ≤ d)
          && decide (d ≤ (e1 :: rest).getLast (List.cons_ne_nil e1 rest)))
    ∧ (histCounts ds (e1 :: rest)).sum =
        ds.countP (fun d => decide (e1 ≤ d)
          && decide (d ≤ (e1 :: rest).getLast (List.cons_ne_nil e1 rest))) :=
  ⟨fun i hi => histCounts_getD ds (e1 :: rest) i hi,
    histCounts_getD_last ds e1 rest hne,
    histCounts_sum ds e1 rest hne hp⟩

/-- C1 (witness): the amended statement evaluated at `distances = [1/2, 1,
3]`, `edges = [0, 1, 2]` (sum conjunct): the raw counts sum to the number of
distances in `[0, 2]`. -/
theorem C1_witness :
    (([(1 : ℚ), 2] : List ℚ) ≠ [] ∧ List.Pairwise (· < ·) [(0 : ℚ), 1, 2])
    ∧ (histCounts [(1 : ℚ), 3, 2] [(0 : ℚ), 1, 2]).sum =
        List.countP (fun d => decide ((0 : ℚ) ≤ d)
          && decide (d ≤ ([(0 : ℚ), 1, 2]).getLast (List.cons_ne_nil 0 [1, 2])))
          [(1 : ℚ), 3, 2] :=
  ⟨⟨by decide, by decide⟩,
    (C1_histogram_semantics [(1 : ℚ), 3, 2] 0 [1, 2] (by decide) (by decide)).2.2⟩

/-- C3 (confirmed): for every ordered structure, the RDF per-bin output is
the raw count divided by the spherical shell volume
`4/3 * pi * (edges[i+1]^3 - edges[i]^3)` and by the number density
`num_sites / volume`, with no normalization by total count; an empty bin
yields 0. -/
theorem C3_rdf_normalization (cfg : RDFConfig) (s : Struct) (hord : s.is_ordered = true)
    (i : ℕ) (hi : i < (make_bins cfg.cutoff cfg.bin_size).length - 1) :
    rdf_featurize cfg s = Except.ok (rdf_compute cfg s)
    ∧ (rdf_compute cfg s).2.getD i 0 =
        ((histCounts (all_distances s) (make_bins cfg.cutoff cfg.bin_size)).getD i 0 : ℝ)
          / (4 / 3 * Real.pi
              * ((((make_bins cfg.cutoff cfg.bin_size).getD (i + 1) 0 : ℚ) : ℝ) ^ 3
                - (((make_bins cfg.cutoff cfg.bin_size).getD i 0 : ℚ) : ℝ) ^ 3))
          / ((s.sites.length : ℝ) / (s.volume : ℝ))
    ∧ ((histCounts (all_distances s) (make_bins cfg.cutoff cfg.bin_size)).getD i 0 = 0 →
        (rdf_compute cfg s).2.getD i 0 = 0) := by
  have hlen : i < (histCounts (all_distances s) (make_bins cfg.cutoff cfg.bin_size)).length := by
    rw [histCounts_length]; exact hi
  have h2 : (rdf_compute cfg s).2.getD i 0 =
      ((histCounts (all_distances s) (make_bins cfg.cutoff cfg.bin_size)).getD i 0 : ℝ)
        / (4 / 3 * Real.pi
            * ((((make_bins cfg.cutoff cfg.bin_size).getD (i + 1) 0 : ℚ) : ℝ) ^ 3
              - (((make_bins cfg.cutoff cfg.bin_size).getD i 0 : ℚ) : ℝ) ^ 3))
        / ((s.sites.length : ℝ) / (s.volume : ℝ)) := by
    simp only [rdf_compute, shell_vol]
    rw [List.getD_eq_getElem?_getD, List.getElem?_map, List.getElem?_range hlen]
    simp
  refine ⟨by simp [rdf_featurize, hord], h2, fun hz => ?_⟩
  rw [h2, hz]
  simp

/-- C3 (witness): the confirmed statement evaluated at `cutoff = 2`,
`bin_size = 1` on a one-site structure with a single neighbor at distance
1. -/
theorem C3_witness :
    (cuStruct.is_ordered = true ∧ 0 < (make_bins 2 1).length - 1)
    ∧ ((rdf_compute ⟨2, 1⟩ cuStruct).2.getD 0 0 =
        ((histCounts (all_distances cuStruct) (make_bins 2 1)).getD 0 0 : ℝ)
          / (4 / 3 * Real.pi
              * ((((make_bins 2 1).getD 1 0 : ℚ) : ℝ) ^ 3
                - (((make_bins 2 1).getD 0 0 : ℚ) : ℝ) ^ 3))
          / ((cuStruct.sites.length : ℝ) / (cuStruct.volume : ℝ))) :=
  ⟨⟨rfl, by with_unfolding_all decide⟩,
    (C3_rdf_normalization ⟨2, 1⟩ cuStruct rfl 0 (by with_unfolding_all decide)).2.1⟩

/-- C7 (counterexample): the ReDF engine performs no occupancy check: on a
structure whose occupancy flag is disordered, `featurize` computes a result
instead of failing with an UnsupportedStructure condition as the claim
demands for all three descriptors. -/
theorem C7_counterexample :
    disorderedIonPair.is_ordered = false
    ∧ (redf_featurize 2 1 disorderedIonPair).isOk = true :=
  ⟨rfl, by with_unfolding_all decide⟩

/-- C7 (amended): the RDF and PRDF engines fail fast with the
UnsupportedStructure condition on a structure with fractional/partial
occupancy (in whatever fit state for PRDF); the ReDF engine performs no
occupancy check of its own and proceeds to compute. -/
theorem C7_disordered_guard (cfgR : RDFConfig) (cfgP : PRDFConfig)
    (elements_ : Option (List String)) (s : Struct) (hdis : s.is_ordered = false) :
    rdf_featurize cfgR s = Except.error disorderedMsg
    ∧ prdf_featurize cfgP elements_ s = Except.error disorderedMsg := by
  constructor
  · simp [rdf_featurize, hdis]
  · simp [prdf_featurize, hdis]

/-- C7 (witness): the amended statement evaluated on a concrete disordered
structure. -/
theorem C7_witness :
    disorderedStruct.is_ordered = false
    ∧ (rdf_featurize ⟨2, 1⟩ disorderedStruct = Except.error disorderedMsg
        ∧ prdf_featurize ⟨2, 1, [], []⟩ none disorderedStruct = Except.error disorderedMsg) :=
  ⟨rfl, C7_disordered_guard ⟨2, 1⟩ ⟨2, 1, [], []⟩ none disorderedStruct rfl⟩

/-- C8 (confirmed): with no fitted vocabulary, PRDF `featurize` (on an
ordered structure) and `feature_labels` both fail with the NotFitted
condition, and `featurize` never returns a value for any structure: the
engine never guesses a vocabulary. -/
theorem C8_notfitted (cfg : PRDFConfig) (s : Struct) (hord : s.is_ordered = true) :
    prdf_featurize cfg none s = Except.error notFittedMsg
    ∧ prdf_feature_labels cfg none = Except.error notFittedMsg
    ∧ ∀ (t : Struct) (r : List ℝ), prdf_featurize cfg none t ≠ Except.ok r := by
  refine ⟨by simp [prdf_featurize, hord], rfl, ?_⟩
  intro t r
  by_cases h : t.is_ordered = true <;> simp [prdf_featurize, h]

/-- C8 (witness): the confirmed statement evaluated on a concrete unfit
engine and ordered structure. -/
theorem C8_witness :
    cuStruct.is_ordered = true
    ∧ (prdf_featurize ⟨2, 1, [], []⟩ none cuStruct = Except.error notFittedMsg
        ∧ prdf_feature_labels ⟨2, 1, [], []⟩ none = Except.error notFittedMsg
        ∧ ∀ (t : Struct) (r : List ℝ),
            prdf_featurize ⟨2, 1, [], []⟩ none t ≠ Except.ok r) :=
  ⟨rfl, C8_notfitted ⟨2, 1, [], []⟩ cuStruct rfl⟩

/-- C9 (counterexample): constructing a ReDF engine with `dr = 0` does not
raise any condition: `__init__` stores the attributes unconditionally and
returns the engine. -/
theorem C9_counterexample : redf_init none 0 = Except.ok ⟨none, 0⟩ := rfl

/-- C9 (amended): a non-positive `dr` is rejected with the
InvalidConfiguration condition at use (featurize) time, not at
construction: construction succeeds for any `dr`, and every `featurize`
call with `dr ≤ 0` fails.  (No `bin_size` validation exists anywhere for
RDF/PRDF.) -/
theorem C9_invalid_dr (cutoff dr : ℚ) (s : ChargedStruct) (hdr : dr ≤ 0) :
    redf_init none dr = Except.ok ⟨none, dr⟩
    ∧ redf_featurize cutoff dr s = Except.error widthMsg :=
  ⟨rfl, by simp [redf_featurize, hdr]⟩

/-- C9 (witness): the amended statement evaluated at `dr = 0`. -/
theorem C9_witness :
    (0 : ℚ) ≤ 0
    ∧ (redf_init none 0 = Except.ok ⟨none, 0⟩
        ∧ redf_featurize 2 0 ionPair = Except.error widthMsg) :=
  ⟨by decide, C9_invalid_dr 2 0 ionPair (by decide)⟩

theorem cwr2_length (l : List String) :
    (cwr2 l).length = Nat.choose (l.length + 1) 2 := by
  induction l with
  | nil => rfl
  | cons x xs ih =>
      simp only [cwr2, List.length_append, List.length_map, List.length_cons, ih]
      rw [Nat.choose_succ_succ (xs.length + 1) 1, Nat.choose_one_right]

theorem cwr2_mem_le : ∀ (l : List String), List.Pairwise (· < ·) l →
    ∀ a b : String, (a, b) ∈ cwr2 l → a ≤ b
  | [], _, a, b, hmem => by simp [cwr2] at hmem
  | x :: xs, hp, a, b, hmem => by
      rcases List.mem_append.mp hmem with h | h
      · rcases List.mem_map.mp h with ⟨y, hy, heq⟩
        simp only [Prod.mk.injEq] at heq
        obtain ⟨rfl, rfl⟩ := heq
        rcases List.mem_cons.mp hy with rfl | hy'
        · exact le_refl _
        · exact le_of_lt ((List.pairwise_cons.mp hp).1 _ hy')
      · exact cwr2_mem_le xs (List.pairwise_cons.mp hp).2 a b h

theorem cwr2_mem_of : ∀ (l : List String), List.Pairwise (· < ·) l →
    ∀ a b : String, a ∈ l → b ∈ l → a ≤ b → (a, b) ∈ cwr2 l
  | [], _, a, _, ha, _, _ => by simp at ha
  | x :: xs, hp, a, b, ha, hb, hab => by
      rcases List.mem_cons.mp ha with rfl | ha'
      · exact List.mem_append.mpr (Or.inl (List.mem_map.mpr ⟨b, hb, rfl⟩))
      · rcases List.mem_cons.mp hb with rfl | hb'
        · exact absurd (lt_of_lt_of_le ((List.pairwise_cons.mp hp).1 _ ha') hab)
            (lt_irrefl _)
        · exact List.mem_append.mpr
            (Or.inr (cwr2_mem_of xs (List.pairwise_cons.mp hp).2 a b ha' hb' hab))

theorem sum_map_length_const {α β : Type} (l : List α) (f : α → List β) (k : ℕ)
    (h : ∀ a ∈ l, (f a).length = k) :
    (List.map (List.length ∘ f) l).sum = l.length * k := by
  induction l with
  | nil => simp
  | cons x xs ih =>
      simp only [List.map_cons, List.sum_cons, List.length_cons, Function.comp_apply,
        h x (by simp)]
      rw [ih (fun a ha => h a (by simp [ha]))]
      ring

theorem prdf_for_pair_length (cfg : PRDFConfig) (s : Struct) (e1 e2 : String) :
    (prdf_for_pair cfg s e1 e2).length = (make_bins cfg.cutoff cfg.bin_size).length - 1 := by
  simp [prdf_for_pair, histCounts_length]

theorem prdf_block_length (cfg : PRDFConfig) (s : Struct) (p : String × String) :
    (prdf_block cfg s p).length = (make_bins cfg.cutoff cfg.bin_size).length - 1 := by
  rw [prdf_block]
  split
  · exact prdf_for_pair_length cfg s p.1 p.2
  · simp

/-- C4 (confirmed): once fitted with a vocabulary of `k` elements, every
PRDF featurize call on an ordered structure returns a flat vector of
exactly `C(k+1,2) * nbins` values (`nbins = len(edges) - 1`), and every
vocabulary pair not fully present in the structure's composition
contributes a zero block of length `nbins` rather than being omitted. -/
theorem C4_prdf_output (cfg : PRDFConfig) (elems : List String) (s : Struct)
    (hord : s.is_ordered = true) :
    prdf_featurize cfg (some elems) s = Except.ok (prdf_compute cfg elems s)
    ∧ (prdf_compute cfg elems s).length =
        Nat.choose (elems.length + 1) 2 * ((make_bins cfg.cutoff cfg.bin_size).length - 1)
    ∧ ∀ p ∈ cwr2 elems, ¬(p.1 ∈ compKeys s ∧ p.2 ∈ compKeys s) →
        prdf_block cfg s p =
          List.replicate ((make_bins cfg.cutoff cfg.bin_size).length - 1) (0 : ℝ) := by
  refine ⟨by simp [prdf_featurize, hord], ?_, ?_⟩
  · rw [prdf_compute, List.length_flatMap,
      sum_map_length_const _ _ _ (fun p _ => prdf_block_length cfg s p), cwr2_length]
  · intro p _ hnot
    rw [prdf_block, if_neg hnot, List.map_const', List.length_dropLast]

/-- C4 (witness): the confirmed statement evaluated on a two-element fitted
vocabulary and a concrete ordered structure. -/
theorem C4_witness :
    feOStruct.is_ordered = true
    ∧ (prdf_featurize ⟨2, 1, [], []⟩ (some ["Fe", "O"]) feOStruct =
          Except.ok (prdf_compute ⟨2, 1, [], []⟩ ["Fe", "O"] feOStruct)
        ∧ (prdf_compute ⟨2, 1, [], []⟩ ["Fe", "O"] feOStruct).length =
            Nat.choose (["Fe", "O"].length + 1) 2 * ((make_bins 2 1).length - 1)
        ∧ ∀ p ∈ cwr2 ["Fe", "O"], ¬(p.1 ∈ compKeys feOStruct ∧ p.2 ∈ compKeys feOStruct) →
            prdf_block ⟨2, 1, [], []⟩ feOStruct p =
              List.replicate ((make_bins 2 1).length - 1) (0 : ℝ)) :=
  ⟨rfl, C4_prdf_output ⟨2, 1, [], []⟩ ["Fe", "O"] feOStruct rfl⟩

/-- C10 (confirmed): for a sorted fitted vocabulary, the feature block
emitted for a distinct pair `(e1, e2)` with `e1 < e2`, both present in the
structure's composition, is the normalized histogram of the bucket whose
origin element is `e1` and neighbor element is `e2` only; the reverse pair
`(e2, e1)` is not among the emitted `combinations_with_replacement` keys,
so distances accumulated in the reverse bucket are excluded from the output
vector. -/
theorem C10_prdf_pair_direction (cfg : PRDFConfig) (s : Struct) (elems : List String)
    (e1 e2 : String) (hsort : List.Pairwise (· < ·) elems) (h1 : e1 ∈ elems)
    (h2 : e2 ∈ elems) (hlt : e1 < e2) (hc1 : e1 ∈ compKeys s) (hc2 : e2 ∈ compKeys s) :
    (e1, e2) ∈ cwr2 elems
    ∧ (e2, e1) ∉ cwr2 elems
    ∧ prdf_block cfg s (e1, e2) = prdf_for_pair cfg s e1 e2
    ∧ ∀ i < (make_bins cfg.cutoff cfg.bin_size).length - 1,
        (prdf_for_pair cfg s e1 e2).getD i 0 =
          ((histCounts (pair_distances s e1 e2) (make_bins cfg.cutoff cfg.bin_size)).getD i 0 : ℝ)
            / shell_vol (make_bins cfg.cutoff cfg.bin_size) i
            / (((fracAmt s e1 : ℚ) : ℝ) * (s.sites.length : ℝ)) := by
  refine ⟨cwr2_mem_of elems hsort e1 e2 h1 h2 (le_of_lt hlt), ?_, ?_, ?_⟩
  · intro hmem
    exact absurd (cwr2_mem_le elems hsort e2 e1 hmem) (not_le.mpr hlt)
  · rw [prdf_block, if_pos ⟨hc1, hc2⟩]
  · intro i hi
    have hlen :
        i < (histCounts (pair_distances s e1 e2) (make_bins cfg.cutoff cfg.bin_size)).length := by
      rw [histCounts_length]; exact hi
    simp only [prdf_for_pair]
    rw [List.getD_eq_getElem?_getD, List.getElem?_map, List.getElem?_range hlen]
    simp [shell_vol]

/-- C10 (witness): the confirmed statement evaluated on the vocabulary
`["Fe", "O"]` and a structure containing both elements. -/
theorem C10_witness :
    (List.Pairwise (· < ·) ["Fe", "O"] ∧ ("Fe" : String) < "O"
      ∧ "Fe" ∈ compKeys feOStruct ∧ "O" ∈ compKeys feOStruct)
    ∧ (("Fe", "O") ∈ cwr2 ["Fe", "O"]
        ∧ ("O", "Fe") ∉ cwr2 ["Fe", "O"]
        ∧ prdf_block ⟨2, 1, [], []⟩ feOStruct ("Fe", "O") =
            prdf_for_pair ⟨2, 1, [], []⟩ feOStruct ("Fe") ("O")
        ∧ ∀ i < (make_bins 2 1).length - 1,
            (prdf_for_pair ⟨2, 1, [], []⟩ feOStruct ("Fe") ("O")).getD i 0 =
              ((histCounts (pair_distances feOStruct ("Fe") ("O")) (make_bins 2 1)).getD i 0 : ℝ)
                / shell_vol (make_bins 2 1) i
                / (((fracAmt feOStruct ("Fe") : ℚ) : ℝ) * (feOStruct.sites.length : ℝ))) :=
  ⟨⟨by with_unfolding_all decide, by with_unfolding_all decide, by decide, by decide⟩,
    C10_prdf_pair_direction ⟨2, 1, [], []⟩ feOStruct ["Fe", "O"] ("Fe") ("O")
      (by with_unfolding_all decide) (by decide) (by decide)
      (by with_unfolding_all decide) (by decide) (by decide)⟩

/-- C6 (confirmed): the fitted vocabulary is the union of the explicitly
included elements and the elements observed across the training structures'
compositions (species reduced to base symbols by `get_symbol` inside
`compKeys`), minus the excluded elements; it is canonically sorted and
independent of the order of the training structures. -/
theorem C6_fit_vocabulary (incl excl : List String) (X X' : List Struct)
    (hperm : X.Perm X') :
    (∀ e, e ∈ fitVocab incl excl X ↔
        ((e ∈ incl ∨ ∃ s ∈ X, e ∈ compKeys s) ∧ e ∉ excl))
    ∧ List.Sorted (· ≤ ·) (fitVocab incl excl X)
    ∧ fitVocab incl excl X = fitVocab incl excl X' := by
  refine ⟨?_, Finset.sort_sorted _ _, ?_⟩
  · intro e
    simp [fitVocab, Finset.mem_sort, Finset.mem_sdiff, Finset.mem_union,
      List.mem_toFinset, List.mem_flatMap]
  · have hset : (X.flatMap compKeys).toFinset = (X'.flatMap compKeys).toFinset := by
      ext a
      simp only [List.mem_toFinset, List.mem_flatMap]
      constructor
      · rintro ⟨s, hs, ha⟩; exact ⟨s, hperm.mem_iff.mp hs, ha⟩
      · rintro ⟨s, hs, ha⟩; exact ⟨s, hperm.mem_iff.mpr hs, ha⟩
    rw [fitVocab, fitVocab, hset]

/-- C6 (witness): the confirmed statement evaluated on a structure with
elements Fe, O and one with Fe (with oxidation state), Ni, in both orders. -/
theorem C6_witness :
    List.Perm [feOStruct, feNiStruct] [feNiStruct, feOStruct]
    ∧ ((∀ e, e ∈ fitVocab [] [] [feOStruct, feNiStruct] ↔
          ((e ∈ ([] : List String) ∨ ∃ s ∈ [feOStruct, feNiStruct], e ∈ compKeys s)
            ∧ e ∉ ([] : List String)))
        ∧ List.Sorted (· ≤ ·) (fitVocab [] [] [feOStruct, feNiStruct])
        ∧ fitVocab [] [] [feOStruct, feNiStruct] = fitVocab [] [] [feNiStruct, feOStruct]) :=
  ⟨List.Perm.swap feNiStruct feOStruct [],
    C6_fit_vocabulary [] [] [feOStruct, feNiStruct] [feNiStruct, feOStruct]
      (List.Perm.swap feNiStruct feOStruct [])⟩

theorem addAt_length (v : List ℚ) (i : ℕ) (x : ℚ) : (addAt v i x).length = v.length := by
  simp [addAt]

theorem addAt_getD (v : List ℚ) (i j : ℕ) (x : ℚ) (hj : j < v.length) :
    (addAt v i x).getD j 0 = if i = j then v.getD j 0 + x else v.getD j 0 := by
  rcases eq_or_ne i j with rfl | hne
  · rw [if_pos rfl, addAt, List.getD_eq_getElem?_getD, List.getD_eq_getElem?_getD,
      List.getElem?_set_self (by exact hj)]
    rw [List.getElem?_eq_getElem hj]
    rfl
  · rw [if_neg hne, addAt, List.getD_eq_getElem?_getD, List.getElem?_set_ne hne,
      List.getD_eq_getElem?_getD]

theorem foldl_addAt_length : ∀ (cs : List (ℕ × ℚ)) (v : List ℚ),
    (cs.foldl (fun w c => addAt w c.1 c.2) v).length = v.length
  | [], _ => rfl
  | c :: cs, v => by
      rw [List.foldl_cons, foldl_addAt_length cs _, addAt_length]

theorem foldl_addAt_getD : ∀ (cs : List (ℕ × ℚ)) (v : List ℚ) (j : ℕ), j < v.length →
    (cs.foldl (fun w c => addAt w c.1 c.2) v).getD j 0
      = v.getD j 0 + ((cs.filter (fun c => decide (c.1 = j))).map (fun c => c.2)).sum
  | [], v, j, _ => by simp
  | c :: cs, v, j, hj => by
      have h1 : j < (addAt v c.1 c.2).length := by rw [addAt_length]; exact hj
      rw [List.foldl_cons, foldl_addAt_getD cs (addAt v c.1 c.2) j h1,
        addAt_getD v c.1 j c.2 hj]
      rcases eq_or_ne c.1 j with rfl | hne
      · simp [List.filter_cons]
        ring
      · simp [List.filter_cons, hne]

/-- C5 (confirmed): the ReDF engine produces `floor(cutoff/dr) + 1` bins
with reported centers `(i + 0.5) * dr`, and for positive in-cutoff
distances, bin `j` of the distribution is the sum, over all ordered
(site, neighbor) records with `floor(d/dr) = j`, of
`q_origin * q_neighbor / (num_sites * d)`; no further normalization is
applied. -/
theorem C5_redf_accumulation (cutoff dr : ℚ) (s : ChargedStruct) (hdr : 0 < dr)
    (hd : ∀ p ∈ s.charges.zip s.neighborsOf, ∀ n ∈ p.2, 0 < n.2 ∧ n.2 ≤ cutoff) :
    redf_featurize cutoff dr s = Except.ok (redf_compute cutoff dr s)
    ∧ (redf_compute cutoff dr s).1 =
        (List.range (Int.toNat ⌊cutoff / dr⌋ + 1)).map (fun (i : ℕ) => ((i : ℚ) + 1 / 2) * dr)
    ∧ (redf_compute cutoff dr s).2.length = Int.toNat ⌊cutoff / dr⌋ + 1
    ∧ (∀ c ∈ redf_contribs dr s, c.1 < Int.toNat ⌊cutoff / dr⌋ + 1)
    ∧ ∀ j < Int.toNat ⌊cutoff / dr⌋ + 1,
        (redf_compute cutoff dr s).2.getD j 0 =
          (((redf_contribs dr s).filter (fun c => decide (c.1 = j))).map (fun c => c.2)).sum := by
  have hproj : (redf_compute cutoff dr s).2 =
      (redf_contribs dr s).foldl (fun v c => addAt v c.1 c.2)
        (List.replicate (redf_nbins cutoff dr) 0) := rfl
  refine ⟨by simp [redf_featurize, not_le.mpr hdr], rfl, ?_, ?_, ?_⟩
  · rw [hproj, foldl_addAt_length, List.length_replicate, redf_nbins]
  · intro c hc
    rw [redf_contribs] at hc
    rcases List.mem_flatMap.mp hc with ⟨p, hp, hcp⟩
    rcases List.mem_map.mp hcp with ⟨n, hn, rfl⟩
    have hd' := hd p hp n hn
    have hdiv : n.2 / dr ≤ cutoff / dr := (div_le_div_iff_of_pos_right hdr).mpr hd'.2
    have hfl : ⌊n.2 / dr⌋ ≤ ⌊cutoff / dr⌋ := Int.floor_mono hdiv
    show Int.toNat ⌊n.2 / dr⌋ < Int.toNat ⌊cutoff / dr⌋ + 1
    omega
  · intro j hj
    have hj' : j < (List.replicate (redf_nbins cutoff dr) (0 : ℚ)).length := by
      rw [List.length_replicate, redf_nbins]; exact hj
    have hjn : j < redf_nbins cutoff dr := by rw [redf_nbins]; exact hj
    rw [hproj, foldl_addAt_getD (redf_contribs dr s) _ j hj']
    rw [List.getD_eq_getElem?_getD, List.getElem?_replicate, if_pos hjn]
    simp

/-- C5 (witness): the confirmed statement evaluated at `cutoff = 2`,
`dr = 1` on the two-site ion pair (charges `+1` and `-1`, mutual distance
1). -/
theorem C5_witness :
    ((0 : ℚ) < 1
      ∧ ∀ p ∈ ionPair.charges.zip ionPair.neighborsOf, ∀ n ∈ p.2, 0 < n.2 ∧ n.2 ≤ 2)
    ∧ (redf_featurize 2 1 ionPair = Except.ok (redf_compute 2 1 ionPair)
        ∧ (redf_compute 2 1 ionPair).1 =
            (List.range (Int.toNat ⌊(2 : ℚ) / 1⌋ + 1)).map
              (fun (i : ℕ) => ((i : ℚ) + 1 / 2) * 1)
        ∧ (redf_compute 2 1 ionPair).2.length = Int.toNat ⌊(2 : ℚ) / 1⌋ + 1
        ∧ (∀ c ∈ redf_contribs 1 ionPair, c.1 < Int.toNat ⌊(2 : ℚ) / 1⌋ + 1)
        ∧ ∀ j < Int.toNat ⌊(2 : ℚ) / 1⌋ + 1,
            (redf_compute 2 1 ionPair).2.getD j 0 =
              (((redf_contribs 1 ionPair).filter (fun c => decide (c.1 = j))).map
                (fun c => c.2)).sum) :=
  ⟨⟨by decide, by decide⟩, C5_redf_accumulation 2 1 ionPair (by decide) (by decide)⟩
